import Mathlib

/-!
Verification of the report-filtering and multi-model response aggregation
pipeline of `src/main.ts` (check-quality-of-unit-testcases).

JavaScript strings are embedded as `List Char`.  Each JS string operation
used by the source (`String.prototype.replace` with a string pattern, which
replaces only the first occurrence; `split(sep).join(repl)`, which replaces
every occurrence; `trim`; `split('/').pop()`; `includes`) is given a faithful
executable Lean definition below.  External collaborators (Jira, Confluence,
GitHub, the OpenRouter store, `JSON.parse` / `JSON.stringify`) are modelled
as oracle fields of a `World` structure; the control flow of `main.ts` over
those oracles is translated statement by statement.
-/

/-- Strings of the embedded JavaScript program: sequences of characters. -/
abbrev Str := List Char

namespace QC

/-- ECMAScript GetSubstitution for a string pattern (zero capture groups):
in the replacement text, `$$` yields `$`, `$&` the matched substring, `$`
followed by a backtick the part of the subject before the match, `$'` the
part after the match; any other `$` (including `$1`..`$99` and `$<`, which
have no captures to refer to here) is kept literally. -/
def expandDollar (matched before after : Str) : Str → Str
  | [] => []
  | c :: t =>
    if c = '$' then
      match t with
      | [] => ['$']
      | d :: t2 =>
        if d = '$' then '$' :: expandDollar matched before after t2
        else if d = '&' then matched ++ expandDollar matched before after t2
        else if d = Char.ofNat 96 then before ++ expandDollar matched before after t2
        else if d = Char.ofNat 39 then after ++ expandDollar matched before after t2
        else '$' :: d :: expandDollar matched before after t2
    else c :: expandDollar matched before after t

/-- Scan of JS `s.replace(pat, repl)` with the already-passed prefix carried
in `before`: at the first position where `pat` matches, emit the
`$`-expanded replacement followed by the rest of the subject unchanged. -/
def replaceFirstAux (pat repl : Str) : Str → Str → Str
  | before, [] =>
    if pat.isPrefixOf ([] : Str) then expandDollar pat before [] repl else []
  | before, a :: t =>
    if pat.isPrefixOf (a :: t) then
      expandDollar pat before ((a :: t).drop pat.length) repl ++
        (a :: t).drop pat.length
    else a :: replaceFirstAux pat repl (before ++ [a]) t

/-- JS `s.replace(pat, repl)` with a string pattern: replace only the first
occurrence of `pat` in `s` (the whole string is returned unchanged when `pat`
does not occur; an empty pattern matches at the front), with the
`$`-substitution patterns of the replacement string expanded. -/
def replaceFirst (pat repl s : Str) : Str :=
  replaceFirstAux pat repl [] s

/-- JS `s.split(c).join('')` for a one-character separator `c`: remove every
occurrence of the character `c`. -/
def removeAllChar (c : Char) : Str → Str
  | [] => []
  | a :: t => if a = c then removeAllChar c t else a :: removeAllChar c t

/-- Fuel-indexed body of `replaceAllTok`; the fuel starts at the string's
length and dominates it throughout, so the `0, _ :: _` case is unreachable. -/
def replaceAllTokF (pat repl : Str) : Nat → Str → Str
  | _, [] => []
  | 0, _ :: _ => []
  | fuel + 1, a :: t =>
    if pat ≠ [] ∧ pat.isPrefixOf (a :: t) then
      repl ++ replaceAllTokF pat repl fuel ((a :: t).drop pat.length)
    else
      a :: replaceAllTokF pat repl fuel t

/-- JS `s.split(pat).join(repl)` for a non-empty string separator: replace
every (leftmost non-overlapping) occurrence of `pat` by `repl`. -/
def replaceAllTok (pat repl : Str) (s : Str) : Str :=
  replaceAllTokF pat repl s.length s

/-- JS `s.includes(pat)`: `pat` occurs as a contiguous substring of `s`. -/
def containsSub (pat : Str) : Str → Bool
  | [] => pat.isPrefixOf ([] : Str)
  | a :: t => pat.isPrefixOf (a :: t) || containsSub pat t

/-- Whitespace for JS `String.prototype.trim`. -/
def isJsSpace (c : Char) : Bool :=
  c = ' ' || c = '\t' || c = '\n' || c = '\r'

/-- JS `s.trim()`: drop whitespace from both ends. -/
def jsTrim (s : Str) : Str :=
  ((s.dropWhile isJsSpace).reverse.dropWhile isJsSpace).reverse

/-- JS `s.split(c)` for a one-character separator: never returns an empty
list (`''.split(c)` is `['']`). -/
def splitChar (c : Char) : Str → List Str
  | [] => [[]]
  | a :: t =>
    match splitChar c t with
    | [] => [[]]
    | h :: r => if a = c then [] :: h :: r else (a :: h) :: r

/-- JS `fileKey.split('/').pop()`: the segment after the last `'/'` (the
whole key when it has no `'/'`). -/
def afterLastSlash (k : Str) : Str :=
  (k.reverse.takeWhile (fun c => c ≠ '/')).reverse

/-- The re-keying of `main.ts` line 58: `fileKey.split('/').pop() || fileKey`
(the `||` falls back to the whole key when the last segment is the empty
string, which is falsy in JS). -/
def baseName (k : Str) : Str :=
  if afterLastSlash k = [] then k else afterLastSlash k

/-! ## Report Filter (`parseReportFile`, `src/main.ts` lines 40-73) -/

/-- Needle normalization of `main.ts` line 43:
`f.replace('src', 'dist').replace('.ts', '')` (first occurrence each). -/
def normalizeNeedle (f : Str) : Str :=
  replaceFirst (".ts".data) [] (replaceFirst ("src".data) ("dist".data) f)

/-- JS object assignment `result[fileName] = v`: overwrite the entry in place
when the key is present, append the entry otherwise. -/
def setKey {V : Type} (m : List (Str × V)) (k : Str) (v : V) : List (Str × V) :=
  if ∃ p ∈ m, p.1 = k then m.map (fun p => if p.1 = k then (k, v) else p)
  else m ++ [(k, v)]

/-- The filtering loop of `main.ts` lines 56-61: keys of the raw report that
contain some normalized needle are re-keyed to their base filename and
accumulated left to right (later writes overwrite earlier ones). -/
def filterEntries {V : Type} (needles : List Str) (entries : List (Str × V)) :
    List (Str × V) :=
  entries.foldl
    (fun acc p =>
      if needles.any (fun f => containsSub f p.1) then setKey acc (baseName p.1) p.2
      else acc)
    []

/-- Pure core of `parseReportFile` (`main.ts` lines 40-73), taking the
collaborator results as arguments: `files` is `GetPullRequestDiff()`,
`content` is `GetReportFileContent(...)`, `parsed` is the result of
`JSON.parse(content)` (`none` when it throws, in which case the surrounding
`catch` returns the empty string), and `strfy` is `JSON.stringify (·, null, 2)`. -/
def parseReportFile (files : List Str) (content : Str)
    (parsed : Option (List (Str × Str))) (strfy : List (Str × Str) → Str) : Str :=
  let filteredFiles := files.map normalizeNeedle
  if filteredFiles.length = 0 then content
  else
    match parsed with
    | none => []
    | some entries =>
      let result := filterEntries filteredFiles entries
      if 0 < result.length then strfy result else content

/-- First-match association lookup (reading a JS object field). -/
def lookupA {V : Type} : List (Str × V) → Str → Option V
  | [], _ => none
  | p :: t, k => if p.1 = k then some p.2 else lookupA t k

/-! ## Prompt Builder (`main.ts` lines 276-280) -/

/-- Construction of `userPrompt` in `main` (lines 277-280):
replace the first `##PLACEHOLDER##` by the Jira title with its first `'\x7b'`
removed, replace the first `##REPORT##` by the report content, then remove
every remaining `'\x7b'` and `'\x7d'`. -/
def buildPrompt (template title report : Str) : Str :=
  let s1 := replaceFirst ("##PLACEHOLDER##".data) (replaceFirst ['{'] [] title) template
  let s2 := replaceFirst ("##REPORT##".data) report s1
  removeAllChar '}' (removeAllChar '{' s2)

/-! ## World: the external collaborators of `main.ts` as oracles -/

/-- Result of `ConfluenceCreatePageTool(...).func(...)`. -/
structure PageResp where
  pageId : Str
  pageTitle : Str
deriving DecidableEq

/-- Parsed summary object (`JSON.parse(sResponse)` exposing `summary` and
`score`; both fields are kept as the strings their template-literal
interpolation produces). -/
structure SummaryJson where
  summary : Str
  score : Str
deriving DecidableEq

/-- Oracles for every external collaborator `main.ts` touches.  `Except`
models a rejected promise / thrown exception, carrying the error message
(`error.message`). -/
structure World where
  reportFilePath : Str
  getJiraTitle : Except Str Str
  getProjectDocument : Except Str Str
  addDocument : Except Str Unit
  getPullRequestDiff : Except Str (List Str)
  getReportFileContent : Except Str Str
  jsonParseObj : Str → Option (List (Str × Str))
  reportStringify : List (Str × Str) → Str
  getUserPrompt : Except Str Str
  openRouterModel : Str
  jiraProjectKey : Str
  generate : Str → Str → Str → Except Str Str
  makeCallToModel : Str → Str → Str → Except Str Str
  summarizePrompt : Str
  parseSummaryJson : Str → Option SummaryJson
  confluenceCreatePage : Str → Except Str PageResp
  createUpdateComments : Str → Except Str Str
  dateString : Str
  githubOwner : Str
  githubRepo : Str
  githubIssueNumber : Str
  useFor : Str
  jiraUrlOutput : Str
  jiraSpaceKeyOutput : Str

/-- External calls observable in a run, in the order they were issued. -/
inductive Ev where
  | genCall (model : Str)
  | sumCall (model : Str)
  | confluence (body : Str)
  | comment (body : Str)
deriving DecidableEq

/-- Index name passed to the store: `JIRA_PROJECT_KEY + '-index'`. -/
def indexName (w : World) : Str :=
  w.jiraProjectKey ++ "-index".data

/-- Labeled verbose block header appended per model (line 133):
`<b>ResponseModel:-</b> $\x7bmodelName\x7d <br /><br/>`. -/
def labelBlock (m : Str) : Str :=
  "<b>ResponseModel:-</b> ".data ++ m ++ " <br /><br/>".data

/-- Visual separator appended after each model when more than one model is
configured (line 155). -/
def separator : Str :=
  "<br /><br /><br />=================================<br />".data

/-- Summary block appended per model on a successful summary parse
(lines 148-150). -/
def summaryBlock (m : Str) (j : SummaryJson) : Str :=
  "\n<b>Model:-</b> ".data ++ m ++
  "\n<b>Summary:-</b> ".data ++ j.summary ++
  "\n<b>Score:-</b> ".data ++ j.score

/-- Code-fence strip of line 145:
`sResponse.split('```json').join('').split('```').join('')`. -/
def stripFences (s : Str) : Str :=
  replaceAllTok ("```".data) [] (replaceAllTok ("```json".data) [] s)

/-! ## Model Response Aggregator (`processModelResponses`, lines 114-178) -/

/-- Loop body of `processModelResponses`, carrying the full configured count
`total` (the separator condition `modelNames.length > 1` reads the whole
list, not the remaining one).  Returns the issued calls and either the error
that was re-thrown or the final `(response, summaryResponse)` pair. -/
def modelLoop (w : World) (total : Nat) (userPrompt : Str) :
    List Str → Str → Str → List Ev × Except Str (Str × Str)
  | [], response, summaryResponse => ([], .ok (response, summaryResponse))
  | m :: rest, response, summaryResponse =>
    match w.generate (jsTrim m) (indexName w) userPrompt with
    | .error e => ([.genCall (jsTrim m)], .error e)
    | .ok storeResponse =>
      let response := response ++ labelBlock m ++ storeResponse
      match w.makeCallToModel m storeResponse w.summarizePrompt with
      | .error e => ([.genCall (jsTrim m), .sumCall m], .error e)
      | .ok sResponse =>
        let summaryResponse :=
          match w.parseSummaryJson (stripFences sResponse) with
          | some j => summaryResponse ++ summaryBlock m j
          | none => summaryResponse
        let response := if total > 1 then response ++ separator else response
        let (evs, out) := modelLoop w total userPrompt rest response summaryResponse
        (.genCall (jsTrim m) :: .sumCall m :: evs, out)

/-- `processModelResponses(modelNames, store, userPrompt, summaryResponse)`
(lines 114-178): the running `response` starts empty. -/
def processModelResponses (w : World) (userPrompt : Str) (modelNames : List Str)
    (summaryResponse : Str) : List Ev × Except Str (Str × Str) :=
  modelLoop w modelNames.length userPrompt modelNames [] summaryResponse

/-! ## Publisher and the tail of `main` (lines 299-389) -/

/-- Markdown strip and newline conversion of lines 307-309. -/
def processedResponse (r : Str) : Str :=
  replaceAllTok ['\n'] ("<br />".data)
    (replaceAllTok ("```".data) [] (replaceAllTok ("```markdown".data) [] r))

/-- `getPRLink()` (lines 88-90). -/
def prLink (w : World) : Str :=
  "<a href=\"https://github.com/".data ++ w.githubOwner ++ "/".data ++
  w.githubRepo ++ "/pull/".data ++ w.githubIssueNumber ++
  "\" target=\"_blank\">Link</a>".data

/-- `getConfluenceLink(createPageResponse)` (lines 97-101). -/
def confluenceLink (w : World) (p : PageResp) : Str :=
  "<a target=\"_blank\" href=\"".data ++ w.jiraUrlOutput ++
  "/wiki/spaces/".data ++ w.jiraSpaceKeyOutput ++ "/pages/".data ++
  p.pageId ++ "/".data ++ p.pageTitle ++ "\">link</a>".data

/-- Header block prepended to the Confluence page body (lines 318-322). -/
def pageBody (w : World) (r : Str) : Str :=
  "<b>Date:-</b>".data ++ w.dateString ++ "<br />".data ++
  "<b>Repo:-</b>".data ++ w.githubRepo ++ "<br />".data ++
  "<b>PR:-</b>".data ++ prLink w ++ "<br />".data ++
  "<b>For:-</b>".data ++ w.useFor ++ "<br />".data ++ r

/-- Details link appended to the summary on Confluence success (line 325). -/
def detailsOf (w : World) (p : PageResp) : Str :=
  "<br /><b>Details:-</b> ".data ++ confluenceLink w p

/-- Error-result formatting of the outermost catch for an `Error` instance
(line 381): `❌ Action failed: $\x7berror.message\x7d`. -/
def actionFailed (e : Str) : Str :=
  "❌ Action failed: ".data ++ e

/-- `getSummaryResponseString()` (lines 79-82), the seed of
`summaryResponse`. -/
def summaryHeader : Str :=
  ("[![Foo](https://sourcefuse.atlassian.net/s/vf1kch/b/9/7104e5158390e41d6b3edd0f16b03d29/_/jira-favicon-scaled.png)](https:/sourcefuse.atlassian.net/) \n" ++
   "## Quality Checker Overview").data

/-- Outcome of a run: the string `main` returns, plus the external calls it
issued. -/
structure Outcome where
  result : Str
  events : List Ev
deriving DecidableEq

/-- Tail of `main` from the model loop on (lines 299-389): run the loop, and
when the aggregated response is non-empty, create the Confluence page
(non-fatally: its failure only loses the Details link) and post the GitHub
comment (fatally: its failure is re-thrown into the outer catch). -/
def runFromLoop (w : World) (userPrompt : Str) (modelNames : List Str)
    (summaryResponse0 : Str) : Outcome :=
  match processModelResponses w userPrompt modelNames summaryResponse0 with
  | (evs, .error e) => ⟨actionFailed e, evs⟩
  | (evs, .ok (response, summaryResponse)) =>
    if response = [] then ⟨response, evs⟩
    else
      let resp2 := processedResponse response
      let body := pageBody w resp2
      match w.confluenceCreatePage body with
      | .ok page =>
        let sum2 := summaryResponse ++ detailsOf w page
        match w.createUpdateComments sum2 with
        | .ok _ => ⟨resp2, evs ++ [.confluence body, .comment sum2]⟩
        | .error e => ⟨actionFailed e, evs ++ [.confluence body, .comment sum2]⟩
      | .error _ =>
        match w.createUpdateComments summaryResponse with
        | .ok _ => ⟨resp2, evs ++ [.confluence body, .comment summaryResponse]⟩
        | .error e =>
          ⟨actionFailed e, evs ++ [.confluence body, .comment summaryResponse]⟩

/-- Wrapper of `parseReportFile` over the world's oracles: either collaborator
throwing is caught and yields the empty string (lines 68-72). -/
def parseReportFileM (w : World) : Str :=
  match w.getPullRequestDiff with
  | .error _ => []
  | .ok files =>
    match w.getReportFileContent with
    | .error _ => []
    | .ok content => parseReportFile files content (w.jsonParseObj content) w.reportStringify

/-- Result string of the `CustomError(ERRORS.ENV_NOT_SET, ...)` thrown when
`REPORT_FILE_PATH` is blank (lines 203-208; the outer catch returns
`error.toString()`).  Modelled from the spec: `CustomError.toString` lives in
the external `OpenRouterAICore` package; only the message passed at the throw
site is known here. -/
def envNotSetResult : Str :=
  "Please provide a valid report file path in the environment variables.".data

/-- `main()` (lines 193-390): the sequential orchestration.  Every thrown
collaborator error reaches the single outer catch, which formats it with
`actionFailed`; steps after a fatal error never run. -/
def mainM (w : World) : Outcome :=
  if jsTrim w.reportFilePath = [] then ⟨envNotSetResult, []⟩
  else
    match w.getJiraTitle with
    | .error e => ⟨actionFailed e, []⟩
    | .ok jiraTitle =>
      match w.getProjectDocument with
      | .error e => ⟨actionFailed e, []⟩
      | .ok _projectDocument =>
        match w.addDocument with
        | .error e => ⟨actionFailed e, []⟩
        | .ok _ =>
          let reportFileContent := parseReportFileM w
          match w.getUserPrompt with
          | .error e => ⟨actionFailed e, []⟩
          | .ok template =>
            let userPrompt := buildPrompt template jiraTitle reportFileContent
            let modelNames := splitChar ',' w.openRouterModel
            runFromLoop w userPrompt modelNames summaryHeader

/-! ## Helper lemmas: the report filter -/

/-- The per-entry step of the filtering loop. -/
def filterStep {V : Type} (needles : List Str) (acc : List (Str × V))
    (p : Str × V) : List (Str × V) :=
  if needles.any (fun f => containsSub f p.1) then setKey acc (baseName p.1) p.2
  else acc

theorem filterEntries_eq_foldl {V : Type} (needles : List Str)
    (entries : List (Str × V)) :
    filterEntries needles entries = entries.foldl (filterStep needles) [] := rfl

theorem filterEntries_concat {V : Type} (needles : List Str)
    (es : List (Str × V)) (p : Str × V) :
    filterEntries needles (es ++ [p]) =
      filterStep needles (filterEntries needles es) p := by
  simp [filterEntries_eq_foldl, List.foldl_append]

theorem filterEntries_nil_of_no_match {V : Type} (needles : List Str)
    (entries : List (Str × V))
    (h : ∀ p ∈ entries, (needles.any fun f => containsSub f p.1) = false) :
    filterEntries needles entries = [] := by
  induction entries using List.reverseRecOn with
  | nil => rfl
  | append_singleton es p ih =>
    rw [filterEntries_concat, filterStep, h p (by simp),
      ih fun q hq => h q (by simp [hq])]
    simp

theorem setKey_ne_nil {V : Type} (m : List (Str × V)) (k : Str) (v : V) :
    setKey m k v ≠ [] := by
  unfold setKey
  split
  · rename_i hex
    obtain ⟨p, hp, _⟩ := hex
    cases m with
    | nil => cases hp
    | cons q t => simp
  · simp

theorem length_setKey_le {V : Type} (m : List (Str × V)) (k : Str) (v : V) :
    (setKey m k v).length ≤ m.length + 1 := by
  unfold setKey
  split <;> simp

theorem mem_setKey {V : Type} {m : List (Str × V)} {k : Str} {v : V}
    {q : Str × V} (h : q ∈ setKey m k v) : q ∈ m ∨ q = (k, v) := by
  unfold setKey at h
  split at h
  · rw [List.mem_map] at h
    obtain ⟨p, hp, hpq⟩ := h
    by_cases hk : p.1 = k
    · rw [if_pos hk] at hpq
      exact .inr hpq.symm
    · rw [if_neg hk] at hpq
      exact .inl (hpq ▸ hp)
  · rcases List.mem_append.mp h with h | h
    · exact .inl h
    · exact .inr (by simpa using h)

theorem lookupA_append_of_not_mem {V : Type} {m : List (Str × V)} {k : Str}
    (l : List (Str × V)) (h : ∀ p ∈ m, p.1 ≠ k) :
    lookupA (m ++ l) k = lookupA l k := by
  induction m with
  | nil => rfl
  | cons p t ih =>
    rw [List.cons_append, lookupA, if_neg (h p (by simp))]
    exact ih fun q hq => h q (by simp [hq])

theorem lookupA_map_update_self {V : Type} {m : List (Str × V)} {k : Str}
    (v : V) (hex : ∃ p ∈ m, p.1 = k) :
    lookupA (m.map fun p => if p.1 = k then (k, v) else p) k = some v := by
  induction m with
  | nil =>
    obtain ⟨q, hq, -⟩ := hex
    exact absurd hq (List.not_mem_nil q)
  | cons p t ih =>
    rw [List.map_cons]
    by_cases hk : p.1 = k
    · rw [if_pos hk]
      simp [lookupA]
    · rw [if_neg hk]
      simp only [lookupA]
      rw [if_neg hk]
      rcases hex with ⟨q, hq, hqk⟩
      rcases List.mem_cons.mp hq with h | h
      · exact absurd (h ▸ hqk) hk
      · exact ih ⟨q, h, hqk⟩

theorem lookupA_map_update_ne {V : Type} (m : List (Str × V)) {k k' : Str}
    (v : V) (hne : k' ≠ k) :
    lookupA (m.map fun p => if p.1 = k then (k, v) else p) k' = lookupA m k' := by
  induction m with
  | nil => rfl
  | cons p t ih =>
    rw [List.map_cons]
    by_cases hk : p.1 = k
    · rw [if_pos hk]
      simp only [lookupA]
      have h1 : ¬ ((k, v) : Str × V).1 = k' := fun h => hne h.symm
      have h2 : ¬ p.1 = k' := fun h => hne ((hk ▸ h : (k : Str) = k')).symm
      rw [if_neg h1, if_neg h2]
      exact ih
    · rw [if_neg hk]
      simp only [lookupA]
      by_cases hk' : p.1 = k'
      · rw [if_pos hk', if_pos hk']
      · rw [if_neg hk', if_neg hk']
        exact ih

theorem lookupA_append_single_ne {V : Type} (m : List (Str × V)) {k k' : Str}
    (v : V) (hne : k' ≠ k) : lookupA (m ++ [(k, v)]) k' = lookupA m k' := by
  induction m with
  | nil =>
    simp only [List.nil_append, lookupA]
    rw [if_neg (show ¬ ((k, v) : Str × V).1 = k' from fun h => hne h.symm)]
  | cons p t ih =>
    rw [List.cons_append]
    simp only [lookupA]
    by_cases hk' : p.1 = k'
    · rw [if_pos hk', if_pos hk']
    · rw [if_neg hk', if_neg hk']
      exact ih

theorem lookupA_setKey_self {V : Type} (m : List (Str × V)) (k : Str) (v : V) :
    lookupA (setKey m k v) k = some v := by
  unfold setKey
  split
  · exact lookupA_map_update_self v (by assumption)
  · rename_i hex
    push_neg at hex
    rw [lookupA_append_of_not_mem _ hex]
    simp [lookupA]

theorem lookupA_setKey_ne {V : Type} (m : List (Str × V)) (k k' : Str) (v : V)
    (hne : k' ≠ k) : lookupA (setKey m k v) k' = lookupA m k' := by
  unfold setKey
  split
  · exact lookupA_map_update_ne m v hne
  · exact lookupA_append_single_ne m v hne

/-- Membership predicate for the filtering loop: entry `p` of the raw report
is selected when some normalized needle occurs in its key. -/
def matchesB (needles : List Str) (p : Str × Str) : Bool :=
  needles.any fun f => containsSub f p.1

theorem mem_filterEntries {needles : List Str} {es : List (Str × Str)}
    {q : Str × Str} (h : q ∈ filterEntries needles es) :
    ∃ p ∈ es, matchesB needles p = true ∧ q.1 = baseName p.1 ∧ q.2 = p.2 := by
  induction es using List.reverseRecOn with
  | nil => cases h
  | append_singleton es p ih =>
    rw [filterEntries_concat, filterStep] at h
    split at h
    · rcases mem_setKey h with h | h
      · obtain ⟨r, hr, hm, hk⟩ := ih h
        exact ⟨r, by simp [hr], hm, hk⟩
      · exact ⟨p, by simp, by assumption, by simp [h], by simp [h]⟩
    · obtain ⟨r, hr, hm, hk⟩ := ih h
      exact ⟨r, by simp [hr], hm, hk⟩

theorem filterEntries_ne_nil {needles : List Str} {es : List (Str × Str)}
    (h : ∃ p ∈ es, matchesB needles p = true) :
    filterEntries needles es ≠ [] := by
  induction es using List.reverseRecOn with
  | nil =>
    obtain ⟨q, hq, -⟩ := h
    exact absurd hq (List.not_mem_nil q)
  | append_singleton es p ih =>
    rw [filterEntries_concat, filterStep]
    split
    · exact setKey_ne_nil _ _ _
    · rename_i hnm
      obtain ⟨q, hq, hqm⟩ := h
      rcases List.mem_append.mp hq with hq | hq
      · exact ih ⟨q, hq, hqm⟩
      · simp only [List.mem_singleton] at hq
        exact absurd (hq ▸ hqm) (by simpa [matchesB] using hnm)

theorem length_filterEntries_le (needles : List Str) (es : List (Str × Str)) :
    (filterEntries needles es).length ≤ es.length := by
  induction es using List.reverseRecOn with
  | nil => simp [filterEntries]
  | append_singleton es p ih =>
    rw [filterEntries_concat, filterStep]
    split
    · calc (setKey (filterEntries needles es) (baseName p.1) p.2).length
          ≤ (filterEntries needles es).length + 1 := length_setKey_le _ _ _
        _ ≤ es.length + 1 := by omega
        _ = (es ++ [p]).length := by simp
    · calc (filterEntries needles es).length ≤ es.length := ih
        _ ≤ (es ++ [p]).length := by simp

theorem lookupA_filterEntries (needles : List Str) (es : List (Str × Str))
    (k : Str) :
    lookupA (filterEntries needles es) k =
      ((es.filter fun p => matchesB needles p && decide (baseName p.1 = k)).getLast?).map
        Prod.snd := by
  induction es using List.reverseRecOn with
  | nil => rfl
  | append_singleton es p ih =>
    rw [filterEntries_concat, filterStep, List.filter_append]
    by_cases hm : matchesB needles p = true
    · by_cases hk : baseName p.1 = k
      · rw [if_pos (by simpa [matchesB] using hm)]
        rw [hk, lookupA_setKey_self]
        simp [hm, hk]
      · rw [if_pos (by simpa [matchesB] using hm)]
        rw [lookupA_setKey_ne _ _ _ _ (fun h => hk h.symm), ih]
        simp [hm, hk]
    · rw [if_neg (by simpa [matchesB] using hm), ih]
      simp [hm]

/-! ## Helper lemmas: string primitives -/

theorem containsSub_correct (pat s : Str) :
    containsSub pat s = true ↔ pat <:+: s := by
  induction s with
  | nil =>
    simp only [containsSub, List.isPrefixOf_iff_prefix, List.prefix_nil,
      List.infix_nil]
  | cons a t ih =>
    simp only [containsSub, Bool.or_eq_true, List.isPrefixOf_iff_prefix, ih,
      List.infix_cons_iff]

theorem mem_of_containsSub {pat s : Str} (h : containsSub pat s = true)
    {c : Char} (hc : c ∈ pat) : c ∈ s :=
  ((containsSub_correct pat s).mp h).subset hc

theorem expandDollar_nil (matched before after : Str) :
    expandDollar matched before after [] = [] := rfl

theorem expandDollar_no_dollar {matched before after : Str} :
    ∀ {r : Str}, '$' ∉ r → expandDollar matched before after r = r := by
  intro r
  induction r with
  | nil => intro _; rfl
  | cons c t ih =>
    intro h
    have hc : ¬ c = '$' := fun he => h (he ▸ List.mem_cons_self c t)
    rw [expandDollar.eq_def]
    simp only
    rw [if_neg hc, ih fun hm => h (List.mem_cons_of_mem c hm)]

theorem mem_replaceFirst_nil {pat : Str} {c : Char} :
    ∀ {before s : Str}, c ∈ replaceFirstAux pat [] before s → c ∈ s := by
  intro before s
  induction s generalizing before with
  | nil =>
    rw [replaceFirstAux]
    split <;> intro h
    · rw [expandDollar_nil] at h
      cases h
    · cases h
  | cons a t ih =>
    rw [replaceFirstAux]
    split
    · intro h
      rw [expandDollar_nil, List.nil_append] at h
      exact List.mem_of_mem_drop h
    · intro h
      rcases List.mem_cons.mp h with h | h
      · exact h ▸ List.mem_cons_self a t
      · exact List.mem_cons_of_mem a (ih h)

theorem notMem_replaceFirst_nil {pat title : Str} {c : Char} (h : c ∉ title) :
    c ∉ replaceFirst pat [] title :=
  fun hc => h (mem_replaceFirst_nil hc)

theorem mem_removeAllChar {b : Char} {s : Str} {c : Char}
    (h : c ∈ removeAllChar b s) : c ∈ s := by
  induction s with
  | nil => cases h
  | cons a t ih =>
    rw [removeAllChar] at h
    split at h
    · exact List.mem_cons_of_mem a (ih h)
    · rcases List.mem_cons.mp h with h | h
      · exact h ▸ List.mem_cons_self a t
      · exact List.mem_cons_of_mem a (ih h)

theorem not_mem_removeAllChar (b : Char) (s : Str) : b ∉ removeAllChar b s := by
  induction s with
  | nil => simp [removeAllChar]
  | cons a t ih =>
    rw [removeAllChar]
    split
    · exact ih
    · rename_i hab
      intro h
      rcases List.mem_cons.mp h with h | h
      · exact hab h.symm
      · exact ih h

theorem replaceFirstAux_append_left {h0 : Char} {pat1 : Str} (repl : Str)
    {A : Str} (hA : ∀ c ∈ A, c ≠ h0) :
    ∀ (before s : Str),
      replaceFirstAux (h0 :: pat1) repl before (A ++ s) =
        A ++ replaceFirstAux (h0 :: pat1) repl (before ++ A) s := by
  induction A with
  | nil => intro before s; simp
  | cons a A1 ih =>
    intro before s
    rw [List.cons_append, replaceFirstAux]
    have hpre : ¬ (h0 :: pat1).isPrefixOf (a :: (A1 ++ s)) := by
      intro hp
      rcases List.isPrefixOf_iff_prefix.mp hp with ⟨u, hu⟩
      exact hA a (List.mem_cons_self a A1) (by injection hu with h1 _; exact h1.symm)
    rw [if_neg hpre, ih (fun c hc => hA c (List.mem_cons_of_mem a hc)) _ s]
    simp [List.append_assoc]

theorem replaceFirstAux_self (h0 : Char) (pat1 repl before X : Str) :
    replaceFirstAux (h0 :: pat1) repl before ((h0 :: pat1) ++ X) =
      expandDollar (h0 :: pat1) before X repl ++ X := by
  have hd : (h0 :: (pat1 ++ X)).drop (h0 :: pat1).length = X := by
    simp only [List.length_cons, List.drop_succ_cons]
    exact List.drop_left pat1 X
  rw [List.cons_append, replaceFirstAux,
    if_pos (List.isPrefixOf_iff_prefix.mpr ⟨X, by simp⟩), hd]

/-! ## Helper definitions and lemmas: the model loop -/

/-- Verbose text the generation oracle returns for model `m` (meaningful when
the call succeeds). -/
def genVal (w : World) (up m : Str) : Str :=
  match w.generate (jsTrim m) (indexName w) up with
  | .ok v => v
  | .error _ => []

/-- The generation call for model `m` succeeds. -/
def genOk (w : World) (up m : Str) : Prop :=
  ∃ v, w.generate (jsTrim m) (indexName w) up = .ok v

/-- Summary text the summarization oracle returns for model `m`. -/
def sumVal (w : World) (up m : Str) : Str :=
  match w.makeCallToModel m (genVal w up m) w.summarizePrompt with
  | .ok s => s
  | .error _ => []

/-- The summarization call for model `m` succeeds. -/
def sumOk (w : World) (up m : Str) : Prop :=
  ∃ s, w.makeCallToModel m (genVal w up m) w.summarizePrompt = .ok s

/-- Both external calls succeed for every model of the list. -/
def callsOk (w : World) (up : Str) (ms : List Str) : Prop :=
  ∀ m ∈ ms, genOk w up m ∧ sumOk w up m

theorem genOk_eq {w : World} {up m : Str} (h : genOk w up m) :
    w.generate (jsTrim m) (indexName w) up = .ok (genVal w up m) := by
  obtain ⟨v, hv⟩ := h
  simp [genVal, hv]

theorem sumOk_eq {w : World} {up m : Str} (h : sumOk w up m) :
    w.makeCallToModel m (genVal w up m) w.summarizePrompt = .ok (sumVal w up m) := by
  obtain ⟨s, hs⟩ := h
  simp [sumVal, hs]

/-- Contribution of one model to `fullResponse` when its calls succeed:
labeled block, verbose text, and the separator when more than one model is
configured. -/
def blockOf (w : World) (up : Str) (total : Nat) (m : Str) : Str :=
  labelBlock m ++ genVal w up m ++ (if total > 1 then separator else [])

/-- The whole `fullResponse` produced by a successful loop. -/
def respTail (w : World) (up : Str) (total : Nat) (ms : List Str) : Str :=
  (ms.map (blockOf w up total)).flatten

/-- Contribution of one model to `summaryResponse`: its formatted block when
its (fence-stripped) summary parses, and nothing at all otherwise. -/
def sumBlockOf (w : World) (up m : Str) : Str :=
  match w.parseSummaryJson (stripFences (sumVal w up m)) with
  | some j => summaryBlock m j
  | none => []

/-- The part a successful loop appends to the seeded `summaryResponse`. -/
def sumTail (w : World) (up : Str) (ms : List Str) : Str :=
  (ms.map (sumBlockOf w up)).flatten

/-- External calls a fully successful loop issues, in order: for each model,
`generate` with the trimmed name, then `makeCallToModel` with the untrimmed
name. -/
def loopTrace (ms : List Str) : List Ev :=
  ms.foldr (fun m acc => .genCall (jsTrim m) :: .sumCall m :: acc) []

theorem modelLoop_ok (w : World) (total : Nat) (up : Str) :
    ∀ (ms : List Str), callsOk w up ms → ∀ (r0 s0 : Str),
      modelLoop w total up ms r0 s0 =
        (loopTrace ms, .ok (r0 ++ respTail w up total ms, s0 ++ sumTail w up ms))
  | [], _, r0, s0 => by
    simp [modelLoop, loopTrace, respTail, sumTail]
  | m :: t, h, r0, s0 => by
    have hm := h m (List.mem_cons_self m t)
    have ht : callsOk w up t := fun x hx => h x (List.mem_cons_of_mem m hx)
    rw [modelLoop, genOk_eq hm.1]
    simp only
    rw [sumOk_eq hm.2]
    simp only
    rw [modelLoop_ok w total up t ht]
    cases hp : w.parseSummaryJson (stripFences (sumVal w up m)) with
    | none =>
      simp only [loopTrace, List.foldr_cons, respTail, sumTail, List.map_cons,
        List.flatten_cons, sumBlockOf, hp, blockOf, Prod.mk.injEq,
        Except.ok.injEq]
      refine ⟨trivial, ?_, ?_⟩
      · split <;> simp [List.append_assoc]
      · simp
    | some j =>
      simp only [loopTrace, List.foldr_cons, respTail, sumTail, List.map_cons,
        List.flatten_cons, sumBlockOf, hp, blockOf, Prod.mk.injEq,
        Except.ok.injEq]
      refine ⟨trivial, ?_, ?_⟩
      · split <;> simp [List.append_assoc]
      · simp [List.append_assoc]

theorem modelLoop_error (w : World) (total : Nat) (up : Str) {m e : Str}
    (rest : List Str)
    (hfail : w.generate (jsTrim m) (indexName w) up = .error e) :
    ∀ (pre : List Str), callsOk w up pre → ∀ (r0 s0 : Str),
      modelLoop w total up (pre ++ m :: rest) r0 s0 =
        (loopTrace pre ++ [.genCall (jsTrim m)], .error e)
  | [], _, r0, s0 => by
    rw [List.nil_append, modelLoop, hfail]
    rfl
  | x :: pre, h, r0, s0 => by
    have hx := h x (List.mem_cons_self x pre)
    have hpre : callsOk w up pre := fun y hy => h y (List.mem_cons_of_mem x hy)
    rw [List.cons_append, modelLoop, genOk_eq hx.1]
    simp only
    rw [sumOk_eq hx.2]
    simp only
    rw [modelLoop_error w total up rest hfail pre hpre]
    cases hp : w.parseSummaryJson (stripFences (sumVal w up x)) <;>
      simp [loopTrace]

theorem modelLoop_events_shape (w : World) (total : Nat) (up : Str) :
    ∀ (ms : List Str) (r0 s0 : Str), ∀ ev ∈ (modelLoop w total up ms r0 s0).1,
      (∃ m, ev = Ev.genCall m) ∨ (∃ m, ev = Ev.sumCall m)
  | [], _, _ => by simp [modelLoop]
  | m :: t, r0, s0 => by
    rw [modelLoop]
    cases hg : w.generate (jsTrim m) (indexName w) up with
    | error e => simp
    | ok v =>
      simp only
      cases hs : w.makeCallToModel m v w.summarizePrompt with
      | error e => simp
      | ok s =>
        simp only
        intro ev hev
        rcases List.mem_cons.mp hev with h | h
        · exact .inl ⟨_, h⟩
        · rcases List.mem_cons.mp h with h | h
          · exact .inr ⟨_, h⟩
          · exact modelLoop_events_shape w total up t _ _ ev h

/-! ## Claim C4 -/

/-- Claim C4: for every raw report content (valid JSON or not) and any parse
outcome, an empty ChangedFileSet makes `parseReportFile` return the raw
content unmodified, without consulting the parse at all (the guard at
`main.ts` line 48 fires before `JSON.parse` is reached). -/
theorem parseReportFile_empty_changed_files (content : Str)
    (parsed : Option (List (Str × Str))) (strfy : List (Str × Str) → Str) :
    parseReportFile [] content parsed strfy = content := rfl

/-! ## Claim C3 -/

/-- Claim C3: for every non-empty ChangedFileSet whose normalized needles match no
key of the parseable raw report, `parseReportFile` returns the raw content
exactly (fail-open), never an empty object. -/
theorem parseReportFile_zero_matches_fail_open (files : List Str)
    (content : Str) (entries : List (Str × Str))
    (strfy : List (Str × Str) → Str) (hne : files ≠ [])
    (hmatch : ∀ p ∈ entries, matchesB (files.map normalizeNeedle) p = false) :
    parseReportFile files content (some entries) strfy = content := by
  unfold parseReportFile
  rw [if_neg (by simpa using hne)]
  simp only
  rw [filterEntries_nil_of_no_match _ _ hmatch]
  simp

/-- Witness for C3 at a concrete input: changed file `src/zz.ts` normalizes
to needle `dist/zz`, which occurs in no key of the report
`[("dist/a", "t1")]`, so the raw content `RAW` comes back as-is. -/
theorem parseReportFile_zero_matches_fail_open_witness :
    parseReportFile ["src/zz.ts".data] ("RAW".data)
      (some [("dist/a".data, "t1".data)]) (fun _ => []) = "RAW".data :=
  parseReportFile_zero_matches_fail_open _ _ _ _ (by decide) (by decide)

/-! ## Claim C5 -/

/-- Strict subset by key, as the claim states it: every key of `r` is a key
of `raw`, and some key of `raw` is missing from `r`. -/
def strictKeySubset {V : Type} (r raw : List (Str × V)) : Prop :=
  (∀ k ∈ r.map Prod.fst, k ∈ raw.map Prod.fst) ∧
  ∃ k ∈ raw.map Prod.fst, k ∉ r.map Prod.fst

/-- Counterexample to C5 as stated: for raw report `[("a", "t")]` and changed
file `a` (whose normalized needle `a` occurs in the key `a`), the filtered
mapping re-keys `a` to its own base filename, so the result has exactly the
raw report's keys — not a strict subset by key. -/
theorem claim5_strict_subset_counterexample :
    matchesB (["a".data].map normalizeNeedle) ("a".data, "t".data) = true ∧
    ¬ strictKeySubset
        (filterEntries (["a".data].map normalizeNeedle) [("a".data, "t".data)])
        [("a".data, "t".data)] := by
  constructor
  · decide
  · intro h
    rcases h with ⟨-, k, hk, hnk⟩
    simp only [List.map_cons, List.map_nil, List.mem_singleton] at hk
    subst hk
    exact hnk (by decide)

/-- Claim C5 (amended): when at least one normalized needle matches, the filtered
mapping is non-empty, has at most as many entries as the raw report, every
entry's key is the base filename of a matching raw key with that raw entry's
value, and looking up any key returns the value of the *last* matching raw
entry whose base filename is that key (last-write-wins) — but the re-keyed
result is not in general a subset by key of the raw report. -/
theorem filterEntries_matching_shape (needles : List Str)
    (es : List (Str × Str)) (hmatch : ∃ p ∈ es, matchesB needles p = true) :
    filterEntries needles es ≠ [] ∧
    (filterEntries needles es).length ≤ es.length ∧
    (∀ q ∈ filterEntries needles es,
      ∃ p ∈ es, matchesB needles p = true ∧ q.1 = baseName p.1 ∧ q.2 = p.2) ∧
    (∀ k, lookupA (filterEntries needles es) k =
      ((es.filter fun p =>
          matchesB needles p && decide (baseName p.1 = k)).getLast?).map
        Prod.snd) :=
  ⟨filterEntries_ne_nil hmatch, length_filterEntries_le needles es,
    fun _ hq => mem_filterEntries hq, lookupA_filterEntries needles es⟩

/-- Witness for C5 (amended) at a concrete input: raw report
`[("dist/a", "t1"), ("src/x/a", "t2")]` with needle `dist/a` and needle `a`;
both keys match, both re-key to base filename `a`, and the second entry wins. -/
theorem filterEntries_matching_shape_witness :
    (∃ p ∈ [("dist/a".data, "t1".data), ("src/x/a".data, "t2".data)],
      matchesB ["a".data] p = true) ∧
    (filterEntries ["a".data]
        [("dist/a".data, "t1".data), ("src/x/a".data, "t2".data)] ≠ [] ∧
      (filterEntries ["a".data]
          [("dist/a".data, "t1".data), ("src/x/a".data, "t2".data)]).length ≤
        ([("dist/a".data, "t1".data), ("src/x/a".data, "t2".data)] :
          List (Str × Str)).length ∧
      (∀ q ∈ filterEntries ["a".data]
          [("dist/a".data, "t1".data), ("src/x/a".data, "t2".data)],
        ∃ p ∈ [("dist/a".data, "t1".data), ("src/x/a".data, "t2".data)],
          matchesB ["a".data] p = true ∧ q.1 = baseName p.1 ∧ q.2 = p.2) ∧
      (∀ k, lookupA (filterEntries ["a".data]
          [("dist/a".data, "t1".data), ("src/x/a".data, "t2".data)]) k =
        (([("dist/a".data, "t1".data), ("src/x/a".data, "t2".data)].filter
            fun p => matchesB ["a".data] p &&
              decide (baseName p.1 = k)).getLast?).map Prod.snd)) :=
  ⟨⟨("dist/a".data, "t1".data), by decide⟩,
    filterEntries_matching_shape ["a".data]
      [("dist/a".data, "t1".data), ("src/x/a".data, "t2".data)]
      ⟨("dist/a".data, "t1".data), by decide⟩⟩

/-! ## Claim C6 -/

/-- Number of positions of `s` at which `pat` occurs. -/
def occCount (pat : Str) : Str → Nat
  | [] => if pat.isPrefixOf ([] : Str) then 1 else 0
  | a :: t => (if pat.isPrefixOf (a :: t) then 1 else 0) + occCount pat t

theorem buildPrompt_no_braces (t u r : Str) :
    '{' ∉ buildPrompt t u r ∧ '}' ∉ buildPrompt t u r := by
  unfold buildPrompt
  constructor
  · intro h
    exact not_mem_removeAllChar '{' _ (mem_removeAllChar h)
  · exact not_mem_removeAllChar '}' _

/-- Counterexample to C6 as stated, twice over, on a template that contains
each placeholder token exactly once.  First, with ticket title `##REPORT##`
the first substitution reintroduces the report token, the second consumes
the wrong occurrence, and the built prompt still contains `##REPORT##`.
Second, the title `$&` — which contains neither `'#'` nor any brace — is a
`$`-substitution pattern: JS `String.replace` expands it to the matched
substring, so the built prompt still contains `##PLACEHOLDER##` itself. -/
theorem claim6_counterexample :
    occCount ("##PLACEHOLDER##".data) ("##PLACEHOLDER## ##REPORT##".data) = 1 ∧
    occCount ("##REPORT##".data) ("##PLACEHOLDER## ##REPORT##".data) = 1 ∧
    containsSub ("##REPORT##".data)
      (buildPrompt ("##PLACEHOLDER## ##REPORT##".data) ("##REPORT##".data)
        ("X".data)) = true ∧
    ('#' ∉ ("$&".data) ∧ '{' ∉ ("$&".data) ∧ '}' ∉ ("$&".data)) ∧
    containsSub ("##PLACEHOLDER##".data)
      (buildPrompt ("##PLACEHOLDER## ##REPORT##".data) ("$&".data)
        ("X".data)) = true := by
  refine ⟨by decide, by decide, by decide, by decide, by decide⟩

/-- Claim C6 (amended): the built prompt never contains a literal `'\x7b'` or `'\x7d'`
character, for every template, title and report.  The stated absence of the
placeholder tokens does not hold in general (see the counterexample: the
substituted title or report can reintroduce a token, either verbatim or via
a `$`-substitution pattern such as `$&`); it does hold whenever the template
splits as `A ++ ##PLACEHOLDER## ++ B ++ ##REPORT## ++ C` with `A`, `B`, `C`,
the ticket title and the report content all free of `'#'`, and the title and
report content also free of `'$'` (so their substitution is literal). -/
theorem buildPrompt_clean (template A B C title report : Str)
    (hT : template =
      A ++ "##PLACEHOLDER##".data ++ B ++ "##REPORT##".data ++ C)
    (hA : '#' ∉ A) (hB : '#' ∉ B) (hC : '#' ∉ C)
    (ht : '#' ∉ title) (hr : '#' ∉ report)
    (htd : '$' ∉ title) (hrd : '$' ∉ report) :
    (∀ t u r : Str, '{' ∉ buildPrompt t u r ∧ '}' ∉ buildPrompt t u r) ∧
    containsSub ("##PLACEHOLDER##".data) (buildPrompt template title report)
      = false ∧
    containsSub ("##REPORT##".data) (buildPrompt template title report)
      = false := by
  refine ⟨buildPrompt_no_braces, ?_⟩
  have hPH : ("##PLACEHOLDER##".data) = '#' :: ("#PLACEHOLDER##".data) := by
    decide
  have hRP : ("##REPORT##".data) = '#' :: ("#REPORT##".data) := by decide
  set t1 := replaceFirst ['{'] [] title with ht1
  have ht1h : '#' ∉ t1 := notMem_replaceFirst_nil ht
  have ht1d : '$' ∉ t1 := notMem_replaceFirst_nil htd
  have hs1 : replaceFirst ("##PLACEHOLDER##".data) t1 template =
      A ++ (t1 ++ (B ++ ("##REPORT##".data ++ C))) := by
    rw [hT, hPH]
    have hassoc :
        A ++ ('#' :: ("#PLACEHOLDER##".data)) ++ B ++ "##REPORT##".data ++ C =
        A ++ (('#' :: ("#PLACEHOLDER##".data)) ++ (B ++ ("##REPORT##".data ++ C))) := by
      simp [List.append_assoc]
    rw [hassoc]
    show replaceFirstAux ('#' :: ("#PLACEHOLDER##".data)) t1 []
      (A ++ (('#' :: ("#PLACEHOLDER##".data)) ++
        (B ++ ("##REPORT##".data ++ C)))) = _
    rw [replaceFirstAux_append_left t1
        (fun c hc (he : c = '#') => hA (he ▸ hc)),
      List.nil_append, replaceFirstAux_self, expandDollar_no_dollar ht1d]
  have hs2 : replaceFirst ("##REPORT##".data) report
      (A ++ (t1 ++ (B ++ ("##REPORT##".data ++ C)))) =
      (A ++ (t1 ++ B)) ++ (report ++ C) := by
    rw [hRP]
    have hassoc :
        A ++ (t1 ++ (B ++ (('#' :: ("#REPORT##".data)) ++ C))) =
        (A ++ (t1 ++ B)) ++ (('#' :: ("#REPORT##".data)) ++ C) := by
      simp [List.append_assoc]
    rw [hassoc]
    have hnotm : ∀ c ∈ A ++ (t1 ++ B), c ≠ '#' := by
      intro c hc he
      subst he
      rcases List.mem_append.mp hc with hc | hc
      · exact hA hc
      · rcases List.mem_append.mp hc with hc | hc
        · exact ht1h hc
        · exact hB hc
    show replaceFirstAux ('#' :: ("#REPORT##".data)) report []
      ((A ++ (t1 ++ B)) ++ (('#' :: ("#REPORT##".data)) ++ C)) = _
    rw [replaceFirstAux_append_left report hnotm, List.nil_append,
      replaceFirstAux_self, expandDollar_no_dollar hrd]
  have hb : buildPrompt template title report =
      removeAllChar '}' (removeAllChar '{'
        ((A ++ (t1 ++ B)) ++ (report ++ C))) := by
    show removeAllChar '}' (removeAllChar '{'
      (replaceFirst ("##REPORT##".data) report
        (replaceFirst ("##PLACEHOLDER##".data)
          (replaceFirst ['{'] [] title) template))) = _
    rw [← ht1, hs1, hs2]
  have hfinal : '#' ∉ buildPrompt template title report := by
    intro hc
    rw [hb] at hc
    have hc2 := mem_removeAllChar (mem_removeAllChar hc)
    rcases List.mem_append.mp hc2 with h2 | h2
    · rcases List.mem_append.mp h2 with h2 | h2
      · exact hA h2
      · rcases List.mem_append.mp h2 with h2 | h2
        · exact ht1h h2
        · exact hB h2
    · rcases List.mem_append.mp h2 with h2 | h2
      · exact hr h2
      · exact hC h2
  constructor
  · cases hocc : containsSub ("##PLACEHOLDER##".data)
        (buildPrompt template title report) with
    | false => rfl
    | true => exact absurd (mem_of_containsSub hocc (by decide)) hfinal
  · cases hocc : containsSub ("##REPORT##".data)
        (buildPrompt template title report) with
    | false => rfl
    | true => exact absurd (mem_of_containsSub hocc (by decide)) hfinal

/-- Witness for C6 (amended) at a concrete input. -/
theorem buildPrompt_clean_witness :
    (∀ t u r : Str, '{' ∉ buildPrompt t u r ∧ '}' ∉ buildPrompt t u r) ∧
    containsSub ("##PLACEHOLDER##".data)
      (buildPrompt ("Ticket: ##PLACEHOLDER## Report: ##REPORT## end".data)
        ("My title".data) ("cases".data)) = false ∧
    containsSub ("##REPORT##".data)
      (buildPrompt ("Ticket: ##PLACEHOLDER## Report: ##REPORT## end".data)
        ("My title".data) ("cases".data)) = false :=
  buildPrompt_clean _ ("Ticket: ".data) (" Report: ".data) (" end".data)
    ("My title".data) ("cases".data) (by decide) (by decide) (by decide)
    (by decide) (by decide) (by decide) (by decide) (by decide)

/-- Concrete world where every collaborator succeeds, used to instantiate
witnesses (individual witnesses override single oracles). -/
def okWorld : World where
  reportFilePath := "report.json".data
  getJiraTitle := .ok ("Title".data)
  getProjectDocument := .ok ("Doc".data)
  addDocument := .ok ()
  getPullRequestDiff := .ok []
  getReportFileContent := .ok ("RAW".data)
  jsonParseObj := fun _ => none
  reportStringify := fun _ => []
  getUserPrompt := .ok ("T ##PLACEHOLDER## ##REPORT##".data)
  openRouterModel := "m1,m2".data
  jiraProjectKey := "KEY".data
  generate := fun _ _ _ => .ok ("GEN".data)
  makeCallToModel := fun _ _ _ => .ok ("SUM".data)
  summarizePrompt := "SP".data
  parseSummaryJson := fun _ => none
  confluenceCreatePage := fun _ => .ok ⟨"9".data, "Page".data⟩
  createUpdateComments := fun _ => .ok ("posted".data)
  dateString := "D".data
  githubOwner := "o".data
  githubRepo := "r".data
  githubIssueNumber := "1".data
  useFor := "u".data
  jiraUrlOutput := "j".data
  jiraSpaceKeyOutput := "s".data

theorem mem_loopTrace {ms : List Str} {m : Str} (h : m ∈ ms) :
    Ev.genCall (jsTrim m) ∈ loopTrace ms ∧ Ev.sumCall m ∈ loopTrace ms := by
  induction ms with
  | nil => cases h
  | cons x t ih =>
    rcases List.mem_cons.mp h with h | h
    · subst h
      exact ⟨List.mem_cons_self _ _, List.mem_cons_of_mem _ (List.mem_cons_self _ _)⟩
    · exact ⟨List.mem_cons_of_mem _ (List.mem_cons_of_mem _ (ih h).1),
        List.mem_cons_of_mem _ (List.mem_cons_of_mem _ (ih h).2)⟩

/-! ## Claim C9 -/

/-- Claim C9: when every model's calls succeed, the loop succeeds and
`fullResponse` is exactly the concatenation, in input order, of the
per-model labeled blocks; in particular for `[m1, m2, m3]` the label of `m1`
precedes the label of `m2`, which precedes the label of `m3`. -/
theorem processModelResponses_order (w : World) (up s0 : Str) (ms : List Str)
    (h : callsOk w up ms) :
    (processModelResponses w up ms s0).2 =
      .ok ((ms.map (blockOf w up ms.length)).flatten, s0 ++ sumTail w up ms) ∧
    (∀ m1 m2 m3 : Str, ms = [m1, m2, m3] →
      ∃ r1 r2 r3 : Str,
        (ms.map (blockOf w up ms.length)).flatten =
          labelBlock m1 ++ (r1 ++ (labelBlock m2 ++ (r2 ++ (labelBlock m3 ++ r3))))) := by
  constructor
  · rw [processModelResponses, modelLoop_ok w ms.length up ms h]
    simp [respTail]
  · intro m1 m2 m3 hms
    subst hms
    refine ⟨genVal w up m1 ++ separator, genVal w up m2 ++ separator,
      genVal w up m3 ++ separator, ?_⟩
    simp [blockOf, List.append_assoc]

/-- Witness for C9 at a concrete three-model input on the all-succeeding
world. -/
theorem processModelResponses_order_witness :
    (processModelResponses okWorld ("P".data) ["a".data, "b".data, "c".data]
        ("S0".data)).2 =
      .ok ((["a".data, "b".data, "c".data].map
          (blockOf okWorld ("P".data) 3)).flatten,
        "S0".data ++ sumTail okWorld ("P".data) ["a".data, "b".data, "c".data]) ∧
    (∀ m1 m2 m3 : Str, ["a".data, "b".data, "c".data] = [m1, m2, m3] →
      ∃ r1 r2 r3 : Str,
        (["a".data, "b".data, "c".data].map
            (blockOf okWorld ("P".data) 3)).flatten =
          labelBlock m1 ++ (r1 ++ (labelBlock m2 ++ (r2 ++ (labelBlock m3 ++ r3))))) :=
  processModelResponses_order okWorld ("P".data)
    ("S0".data) ["a".data, "b".data, "c".data]
    (fun _ _ => ⟨⟨"GEN".data, rfl⟩, ⟨"SUM".data, rfl⟩⟩)

/-! ## Claim C2 -/

/-- Claim C2: when every call succeeds but model `m`'s (fence-stripped) summary
fails to parse as JSON, the whole run still succeeds, `fullResponse` still
contains `m`'s labeled verbose block, and `summaryResponse` is the seed
followed by the blocks of the models before and after `m` only — no entry
and no placeholder for `m`. -/
theorem processModelResponses_summary_skip (w : World) (up s0 : Str)
    (pre rest : List Str) (m : Str)
    (h : callsOk w up (pre ++ m :: rest))
    (hparse : w.parseSummaryJson (stripFences (sumVal w up m)) = none) :
    (processModelResponses w up (pre ++ m :: rest) s0).2 =
      .ok (respTail w up (pre ++ m :: rest).length (pre ++ m :: rest),
        s0 ++ (sumTail w up pre ++ sumTail w up rest)) ∧
    containsSub (labelBlock m ++ genVal w up m)
      (respTail w up (pre ++ m :: rest).length (pre ++ m :: rest)) = true := by
  constructor
  · rw [processModelResponses, modelLoop_ok w _ up _ h]
    have hsum : sumTail w up (pre ++ m :: rest) =
        sumTail w up pre ++ sumTail w up rest := by
      simp [sumTail, sumBlockOf, hparse]
    rw [hsum]
    simp [respTail]
  · rw [containsSub_correct]
    refine ⟨respTail w up (pre ++ m :: rest).length pre,
      (if (pre ++ m :: rest).length > 1 then separator else []) ++
        respTail w up (pre ++ m :: rest).length rest, ?_⟩
    simp [respTail, blockOf, List.append_assoc]

/-- World for the C2 witness: the summarization call echoes the model name,
and only the text `good` parses as a summary object. -/
def skipWorld : World :=
  { okWorld with
    makeCallToModel := fun m _ _ => .ok m
    parseSummaryJson := fun s =>
      if s = "good".data then some ⟨"Good".data, "8".data⟩ else none }

/-- Witness for C2: two models, the first summary parseable, the second
(`bad`) unparseable; the run succeeds and only `good`'s summary block is
appended. -/
theorem processModelResponses_summary_skip_witness :
    (processModelResponses skipWorld ("P".data) ["good".data, "bad".data]
        ("S0".data)).2 =
      .ok (respTail skipWorld ("P".data) 2 ["good".data, "bad".data],
        "S0".data ++ (sumTail skipWorld ("P".data) ["good".data] ++
          sumTail skipWorld ("P".data) [])) ∧
    containsSub (labelBlock ("bad".data) ++ genVal skipWorld ("P".data) ("bad".data))
      (respTail skipWorld ("P".data) 2 ["good".data, "bad".data]) = true :=
  processModelResponses_summary_skip skipWorld ("P".data) ("S0".data)
    ["good".data] [] ("bad".data)
    (fun x _ => ⟨⟨"GEN".data, rfl⟩, ⟨x, rfl⟩⟩) (by decide)

/-! ## Claim C7 -/

/-- Counterexample to C7 as stated: for the single configured entry `" m "`
(with surrounding blanks), the generation call receives the trimmed name `m`
but the summarization call receives the original untrimmed `" m "`, which
differs from its trim. -/
theorem claim7_counterexample :
    (processModelResponses okWorld ("P".data) [" m ".data] []).1 =
      [Ev.genCall ("m".data), Ev.sumCall (" m ".data)] ∧
    " m ".data ≠ jsTrim (" m ".data) := by
  exact ⟨by decide, by decide⟩

/-- Claim C7 (amended): on a fully successful run, each configured entry is passed
trimmed to the generation call but untrimmed (exactly as written) to the
summarization call. -/
theorem processModelResponses_call_arguments (w : World) (up s0 : Str)
    (ms : List Str) (h : callsOk w up ms) :
    (processModelResponses w up ms s0).1 = loopTrace ms ∧
    (∀ m ∈ ms, Ev.genCall (jsTrim m) ∈ (processModelResponses w up ms s0).1 ∧
      Ev.sumCall m ∈ (processModelResponses w up ms s0).1) := by
  have htr : (processModelResponses w up ms s0).1 = loopTrace ms := by
    rw [processModelResponses, modelLoop_ok w ms.length up ms h]
  exact ⟨htr, fun m hm => htr ▸ mem_loopTrace hm⟩

/-- Witness for C7 (amended) at the concrete entry `" m "`. -/
theorem processModelResponses_call_arguments_witness :
    (processModelResponses okWorld ("P".data) [" m ".data] []).1 =
      loopTrace [" m ".data] ∧
    (∀ m ∈ [" m ".data],
      Ev.genCall (jsTrim m) ∈ (processModelResponses okWorld ("P".data) [" m ".data] []).1 ∧
      Ev.sumCall m ∈ (processModelResponses okWorld ("P".data) [" m ".data] []).1) :=
  processModelResponses_call_arguments okWorld ("P".data) [] [" m ".data]
    (fun _ _ => ⟨⟨"GEN".data, rfl⟩, ⟨"SUM".data, rfl⟩⟩)

/-! ## Claims C1, C8, C10: helpers -/

theorem loopTrace_shape (ms : List Str) :
    ∀ ev ∈ loopTrace ms, (∃ x, ev = Ev.genCall x) ∨ (∃ x, ev = Ev.sumCall x) := by
  induction ms with
  | nil => simp [loopTrace]
  | cons m t ih =>
    intro ev hev
    rcases List.mem_cons.mp hev with h | hev2
    · exact .inl ⟨_, h⟩
    · rcases List.mem_cons.mp hev2 with h | h
      · exact .inr ⟨_, h⟩
      · exact ih ev h

theorem no_publish_of_shape {l : List Ev}
    (h : ∀ ev ∈ l, (∃ x, ev = Ev.genCall x) ∨ (∃ x, ev = Ev.sumCall x)) :
    (∀ b, Ev.confluence b ∉ l) ∧ (∀ b, Ev.comment b ∉ l) := by
  constructor
  · intro b hb
    rcases h _ hb with ⟨x, hx⟩ | ⟨x, hx⟩ <;> cases hx
  · intro b hb
    rcases h _ hb with ⟨x, hx⟩ | ⟨x, hx⟩ <;> cases hx

theorem actionFailed_ne_nil (e : Str) : actionFailed e ≠ [] := by
  unfold actionFailed
  cases h : "❌ Action failed: ".data with
  | nil => exact absurd h (by decide)
  | cons a t => simp

/-! ## Claim C1 -/

/-- Claim C1: when the generation call for the model after `pre` rejects (all of
`pre`'s calls having succeeded), the whole run fails: `main` returns the
non-empty formatted error string, the issued calls are exactly those for
`pre` plus the one failing generation call (so no call at all is made for
the remaining models), and neither the Confluence page creation nor the
GitHub comment posting is ever invoked. -/
theorem mainM_generation_failure_fatal (w : World) (jt pd tpl : Str)
    (pre rest : List Str) (m e : Str)
    (henv : jsTrim w.reportFilePath ≠ [])
    (hjt : w.getJiraTitle = .ok jt)
    (hpd : w.getProjectDocument = .ok pd)
    (hadd : w.addDocument = .ok ())
    (hup : w.getUserPrompt = .ok tpl)
    (hsplit : splitChar ',' w.openRouterModel = pre ++ m :: rest)
    (hpre : callsOk w (buildPrompt tpl jt (parseReportFileM w)) pre)
    (hfail : w.generate (jsTrim m) (indexName w)
      (buildPrompt tpl jt (parseReportFileM w)) = .error e) :
    mainM w = ⟨actionFailed e, loopTrace pre ++ [Ev.genCall (jsTrim m)]⟩ ∧
    actionFailed e ≠ [] ∧
    (∀ b, Ev.confluence b ∉ (mainM w).events) ∧
    (∀ b, Ev.comment b ∉ (mainM w).events) := by
  have hm : mainM w = runFromLoop w (buildPrompt tpl jt (parseReportFileM w))
      (pre ++ m :: rest) summaryHeader := by
    unfold mainM
    rw [if_neg henv, hjt]
    simp only
    rw [hpd]
    simp only
    rw [hadd]
    simp only
    rw [hup]
    simp only
    rw [hsplit]
  have hloop : runFromLoop w (buildPrompt tpl jt (parseReportFileM w))
      (pre ++ m :: rest) summaryHeader =
      ⟨actionFailed e, loopTrace pre ++ [Ev.genCall (jsTrim m)]⟩ := by
    unfold runFromLoop processModelResponses
    rw [modelLoop_error w (pre ++ m :: rest).length _ rest hfail pre hpre]
  have hev : (mainM w).events = loopTrace pre ++ [Ev.genCall (jsTrim m)] := by
    rw [hm, hloop]
  have hshape : ∀ ev ∈ (mainM w).events,
      (∃ x, ev = Ev.genCall x) ∨ (∃ x, ev = Ev.sumCall x) := by
    rw [hev]
    intro ev hevm
    rcases List.mem_append.mp hevm with h | h
    · exact loopTrace_shape pre ev h
    · exact .inl ⟨_, List.mem_singleton.mp h⟩
  exact ⟨hm.trans hloop, actionFailed_ne_nil e,
    (no_publish_of_shape hshape).1, (no_publish_of_shape hshape).2⟩

/-- World for the C1 witness: three configured models `a,b,c`; generation
rejects with `boom` exactly for model `b`. -/
def genFailWorld : World :=
  { okWorld with
    openRouterModel := "a,b,c".data
    generate := fun mm _ _ =>
      if mm = "b".data then .error ("boom".data) else .ok ("GEN".data) }

/-- Witness for C1: with models `a,b,c` and `b`'s generation rejecting, the
run returns the formatted error, only `a`'s two calls and `b`'s failing
generation call are issued, and no publish call happens. -/
theorem mainM_generation_failure_fatal_witness :
    mainM genFailWorld =
      ⟨actionFailed ("boom".data),
        loopTrace ["a".data] ++ [Ev.genCall ("b".data)]⟩ ∧
    actionFailed ("boom".data) ≠ [] ∧
    (∀ b, Ev.confluence b ∉ (mainM genFailWorld).events) ∧
    (∀ b, Ev.comment b ∉ (mainM genFailWorld).events) :=
  mainM_generation_failure_fatal genFailWorld ("Title".data) ("Doc".data)
    ("T ##PLACEHOLDER## ##REPORT##".data) ["a".data] ["c".data] ("b".data)
    ("boom".data) (by decide) rfl rfl rfl rfl (by decide)
    (by
      intro x hx
      simp only [List.mem_singleton] at hx
      subst hx
      exact ⟨⟨"GEN".data, rfl⟩, ⟨"SUM".data, rfl⟩⟩)
    rfl

/-! ## Claim C8 -/

/-- Claim C8: in the publish phase (aggregation succeeded with a non-empty
response), a Confluence page-creation failure is non-fatal — the GitHub
comment is still posted, with the summary exactly as aggregated (no Details
link), and the run returns the processed response — whereas a comment-posting
failure is fatal: the run's result is the non-empty formatted error string. -/
theorem runFromLoop_publish_failure_policy (w : World) (up s0 : Str)
    (ms : List Str) (evs : List Ev) (resp sum : Str)
    (hloop : processModelResponses w up ms s0 = (evs, .ok (resp, sum)))
    (hne : resp ≠ []) :
    (∀ ce g,
      w.confluenceCreatePage (pageBody w (processedResponse resp)) = .error ce →
      w.createUpdateComments sum = .ok g →
      runFromLoop w up ms s0 =
        ⟨processedResponse resp,
          evs ++ [Ev.confluence (pageBody w (processedResponse resp)),
            Ev.comment sum]⟩) ∧
    (∀ e,
      (match w.confluenceCreatePage (pageBody w (processedResponse resp)) with
        | .ok page => w.createUpdateComments (sum ++ detailsOf w page)
        | .error _ => w.createUpdateComments sum) = .error e →
      (runFromLoop w up ms s0).result = actionFailed e ∧ actionFailed e ≠ []) := by
  constructor
  · intro ce g hconf hcomm
    unfold runFromLoop
    rw [hloop]
    simp only
    rw [if_neg hne, hconf]
    simp only
    rw [hcomm]
  · intro e hcomm
    cases hconf : w.confluenceCreatePage (pageBody w (processedResponse resp)) with
    | ok page =>
      rw [hconf] at hcomm
      simp only at hcomm
      unfold runFromLoop
      rw [hloop]
      simp only
      rw [if_neg hne, hconf]
      simp only
      rw [hcomm]
      exact ⟨rfl, actionFailed_ne_nil e⟩
    | error ce =>
      rw [hconf] at hcomm
      simp only at hcomm
      unfold runFromLoop
      rw [hloop]
      simp only
      rw [if_neg hne, hconf]
      simp only
      rw [hcomm]
      exact ⟨rfl, actionFailed_ne_nil e⟩

/-- World for the first half of the C8 witness: Confluence page creation
rejects, comment posting succeeds. -/
def confFailWorld : World :=
  { okWorld with confluenceCreatePage := fun _ => .error ("cfail".data) }

/-- World for the second half of the C8 witness: Confluence page creation
rejects and comment posting also rejects. -/
def commentFailWorld : World :=
  { okWorld with
    confluenceCreatePage := fun _ => .error ("cfail".data)
    createUpdateComments := fun _ => .error ("gfail".data) }

/-- Witness for C8, applying the theorem at two concrete one-model worlds:
one where only Confluence fails (the comment is still posted without a
Details link and the run succeeds) and one where the comment call fails too
(the run ends with the formatted error). -/
theorem runFromLoop_publish_failure_policy_witness :
    ((∀ ce g,
      confFailWorld.confluenceCreatePage
          (pageBody confFailWorld
            (processedResponse (labelBlock ("a".data) ++ "GEN".data))) = .error ce →
      confFailWorld.createUpdateComments ("S0".data) = .ok g →
      runFromLoop confFailWorld ("P".data) ["a".data] ("S0".data) =
        ⟨processedResponse (labelBlock ("a".data) ++ "GEN".data),
          loopTrace ["a".data] ++
            [Ev.confluence (pageBody confFailWorld
              (processedResponse (labelBlock ("a".data) ++ "GEN".data))),
             Ev.comment ("S0".data)]⟩) ∧
    (∀ e,
      (match confFailWorld.confluenceCreatePage
          (pageBody confFailWorld
            (processedResponse (labelBlock ("a".data) ++ "GEN".data))) with
        | .ok page =>
          confFailWorld.createUpdateComments ("S0".data ++ detailsOf confFailWorld page)
        | .error _ => confFailWorld.createUpdateComments ("S0".data)) = .error e →
      (runFromLoop confFailWorld ("P".data) ["a".data] ("S0".data)).result =
        actionFailed e ∧ actionFailed e ≠ [])) ∧
    ((∀ ce g,
      commentFailWorld.confluenceCreatePage
          (pageBody commentFailWorld
            (processedResponse (labelBlock ("a".data) ++ "GEN".data))) = .error ce →
      commentFailWorld.createUpdateComments ("S0".data) = .ok g →
      runFromLoop commentFailWorld ("P".data) ["a".data] ("S0".data) =
        ⟨processedResponse (labelBlock ("a".data) ++ "GEN".data),
          loopTrace ["a".data] ++
            [Ev.confluence (pageBody commentFailWorld
              (processedResponse (labelBlock ("a".data) ++ "GEN".data))),
             Ev.comment ("S0".data)]⟩) ∧
    (∀ e,
      (match commentFailWorld.confluenceCreatePage
          (pageBody commentFailWorld
            (processedResponse (labelBlock ("a".data) ++ "GEN".data))) with
        | .ok page =>
          commentFailWorld.createUpdateComments
            ("S0".data ++ detailsOf commentFailWorld page)
        | .error _ => commentFailWorld.createUpdateComments ("S0".data)) = .error e →
      (runFromLoop commentFailWorld ("P".data) ["a".data] ("S0".data)).result =
        actionFailed e ∧ actionFailed e ≠ [])) :=
  ⟨runFromLoop_publish_failure_policy confFailWorld ("P".data) ("S0".data)
      ["a".data] (loopTrace ["a".data]) (labelBlock ("a".data) ++ "GEN".data)
      ("S0".data) rfl (by decide),
    runFromLoop_publish_failure_policy commentFailWorld ("P".data) ("S0".data)
      ["a".data] (loopTrace ["a".data]) (labelBlock ("a".data) ++ "GEN".data)
      ("S0".data) rfl (by decide)⟩

/-! ## Claim C10 -/

/-- Claim C10: when the model loop completes with an empty aggregated
`fullResponse`, the whole publish phase is skipped — no Confluence call and
no comment call appear among the issued calls — and the run returns the
empty string as its success result. -/
theorem runFromLoop_empty_response_skips_publish (w : World) (up s0 : Str)
    (ms : List Str) (evs : List Ev) (sum : Str)
    (hloop : processModelResponses w up ms s0 = (evs, .ok ([], sum))) :
    runFromLoop w up ms s0 = ⟨[], evs⟩ ∧
    (∀ b, Ev.confluence b ∉ evs) ∧ (∀ b, Ev.comment b ∉ evs) := by
  have hshape : ∀ ev ∈ evs, (∃ x, ev = Ev.genCall x) ∨ (∃ x, ev = Ev.sumCall x) := by
    have h1 : evs = (processModelResponses w up ms s0).1 := by rw [hloop]
    rw [h1]
    exact modelLoop_events_shape w ms.length up ms [] s0
  refine ⟨?_, (no_publish_of_shape hshape).1, (no_publish_of_shape hshape).2⟩
  unfold runFromLoop
  rw [hloop]
  simp

/-- Witness for C10: with an empty model list the loop yields an empty
response, no calls at all are issued, and the run result is the empty
string. -/
theorem runFromLoop_empty_response_skips_publish_witness :
    runFromLoop okWorld ("P".data) [] ("S0".data) = ⟨[], []⟩ ∧
    (∀ b, Ev.confluence b ∉ ([] : List Ev)) ∧
    (∀ b, Ev.comment b ∉ ([] : List Ev)) :=
  runFromLoop_empty_response_skips_publish okWorld ("P".data) ("S0".data)
    [] [] ("S0".data) rfl

end QC
